import Mathlib

/-!
Verification of the SORT multi-object tracker
(src/sort_with_detailed_explanation.py) against its specification.

The Python source is shallowly embedded below.  Machine floats are modelled
by `PyF`: a finite rational value or one of the IEEE non-finite values
NaN / +inf / -inf, with numpy's division-by-zero semantics made explicit in
`fdiv`.  Exact rational arithmetic stands in for float arithmetic.  The
external Kalman filter backend (filterpy) together with the state-space
conversions applied at its boundary is abstracted as a `KFModel`, and the
external linear-assignment backend (lap / scipy) as a function parameter
`lsq`; every piece of orchestration logic that lives in the repository is
translated directly.
-/

/-- Model of an IEEE-754 double as observed by the tracker: a finite value
(represented exactly as a rational) or one of the non-finite values NaN,
+inf, -inf. -/
inductive PyF where
  | fin (q : ℚ)
  | nan
  | inf
  | ninf
deriving DecidableEq, Repr

/-- numpy float division on finite operands: `0/0` is NaN, `x/0` for
nonzero `x` is a signed infinity, otherwise the exact quotient. -/
def fdiv (a b : ℚ) : PyF :=
  if b = 0 then (if a = 0 then PyF.nan else if 0 < a then PyF.inf else PyF.ninf)
  else PyF.fin (a / b)

/-- numpy comparison `v > t` against a finite threshold `t`: NaN compares
false, +inf compares true, -inf compares false. -/
def PyF.gtQ : PyF → ℚ → Bool
  | PyF.fin q, t => decide (t < q)
  | PyF.nan, _ => false
  | PyF.inf, _ => true
  | PyF.ninf, _ => false

/-- numpy comparison `v < t` against a finite threshold `t`: NaN compares
false, +inf compares false, -inf compares true. -/
def PyF.ltQ : PyF → ℚ → Bool
  | PyF.fin q, t => decide (q < t)
  | PyF.nan, _ => false
  | PyF.inf, _ => false
  | PyF.ninf, _ => true

/-- Negation of a float, as used to turn the IoU matrix into a cost matrix. -/
def PyF.negF : PyF → PyF
  | PyF.fin q => PyF.fin (-q)
  | PyF.nan => PyF.nan
  | PyF.inf => PyF.ninf
  | PyF.ninf => PyF.inf

/-- np.isnan: true exactly on NaN. -/
def PyF.isNaN : PyF → Bool
  | PyF.nan => true
  | _ => false

/-- np.isfinite: true exactly on finite values. -/
def PyF.isFinite : PyF → Bool
  | PyF.fin _ => true
  | _ => false

/-- The finite value carried by a float (0 on non-finite values; only ever
read on values known to be finite). -/
def PyF.val : PyF → ℚ
  | PyF.fin q => q
  | _ => 0

/-- A finite bounding box `[x1, y1, x2, y2]`. -/
structure Box4 where
  x1 : ℚ
  y1 : ℚ
  x2 : ℚ
  y2 : ℚ
deriving DecidableEq, Repr

/-- A detection row `[x1, y1, x2, y2, score]` as handed to `Sort.update`.
Only the first four columns are ever read by the core. -/
structure Det where
  x1 : ℚ
  y1 : ℚ
  x2 : ℚ
  y2 : ℚ
  score : ℚ
deriving DecidableEq, Repr

/-- The box part (columns 0..3) of a detection row. -/
def Det.box (d : Det) : Box4 := ⟨d.x1, d.y1, d.x2, d.y2⟩

/-- A detection row used when an index is out of range; the Python code
would raise IndexError there, so theorems only ever look at in-range
indices. -/
def defaultDet : Det := ⟨0, 0, 0, 0, 0⟩

/-- A predicted box as returned by `KalmanBoxTracker.predict`: four floats
that may be non-finite when the filter state degenerates. -/
structure PBox where
  p0 : PyF
  p1 : PyF
  p2 : PyF
  p3 : PyF
deriving DecidableEq, Repr

/-- `np.any(np.isnan(pos))` over the four coordinates. -/
def PBox.hasNaN (b : PBox) : Bool :=
  b.p0.isNaN || b.p1.isNaN || b.p2.isNaN || b.p3.isNaN

/-- All four coordinates are finite (the row survives
`np.ma.masked_invalid`). -/
def PBox.allFinite (b : PBox) : Bool :=
  b.p0.isFinite && b.p1.isFinite && b.p2.isFinite && b.p3.isFinite

/-- Extract the finite box from a predicted box (used only on rows that
passed the all-finite check). -/
def PBox.toBox4 (b : PBox) : Box4 := ⟨b.p0.val, b.p1.val, b.p2.val, b.p3.val⟩

/-- Clamped intersection area of two boxes, from `iou_batch`:
`w = max(0, min(x2) - max(x1))`, `h = max(0, min(y2) - max(y1))`,
intersection `= w * h`. -/
def interArea (bt bg : Box4) : ℚ :=
  max 0 (min bt.x2 bg.x2 - max bt.x1 bg.x1) * max 0 (min bt.y2 bg.y2 - max bt.y1 bg.y1)

/-- Signed area `(x2 - x1) * (y2 - y1)` of a box, exactly as the
denominator of `iou_batch` computes it (no clamping). -/
def area (b : Box4) : ℚ := (b.x2 - b.x1) * (b.y2 - b.y1)

/-- One entry of `iou_batch`: `wh / (area(test) + area(gt) - wh)`, with
numpy division semantics (0/0 gives NaN). -/
def iou (bt bg : Box4) : PyF :=
  fdiv (interArea bt bg) (area bt + area bg - interArea bt bg)

/-- `iou_batch(bb_test, bb_gt)`: the matrix `M[i, j] = iou(test_i, gt_j)`,
shape `len(bb_test) x len(bb_gt)`. -/
def iou_batch (dets trks : List Box4) : List (List PyF) :=
  dets.map (fun d => trks.map (fun t => iou d t))

/-- Matrix lookup `m[i, j]`.  Out-of-range access would raise IndexError in
Python; the NaN default is junk that theorems never rely on. -/
def matEntry (m : List (List PyF)) (i j : ℕ) : PyF :=
  (m.getD i []).getD j PyF.nan

/-- The cost matrix `-iou_matrix` handed to `linear_assignment`. -/
def negIouMatrix (dets trks : List Box4) : List (List PyF) :=
  (iou_batch dets trks).map (fun row => row.map PyF.negF)

/-- The `matched_indices` computation of `associate_detections_to_trackers`
(lines 236-253).  `lsq` abstracts the external `linear_assignment` backend
(lap.lapjv or scipy's Hungarian solver), which returns a list of
`(row, col)` pairs for the given cost matrix.  The fast path thresholds the
IoU matrix strictly at `iou_threshold` (`a = (iou_matrix > iou_threshold)`),
and is taken when both the maximal row sum and the maximal column sum of
the resulting binary matrix equal 1; its matches are the true positions in
row-major order, exactly as `np.stack(np.where(a), axis=1)` produces them. -/
def gtEntry (dets trks : List Box4) (iou_threshold : ℚ) (i j : ℕ) : Bool :=
  (matEntry (iou_batch dets trks) i j).gtQ iou_threshold

/-- The row sums `a.sum(1)` of the binary matrix
`a = (iou_matrix > iou_threshold)`: for each detection row, the number of
tracker columns strictly above the threshold. -/
def rowSumsOf (dets trks : List Box4) (iou_threshold : ℚ) : List ℕ :=
  (List.range dets.length).map
    (fun i => (List.range trks.length).countP (fun j => gtEntry dets trks iou_threshold i j))

/-- The column sums `a.sum(0)` of the binary matrix. -/
def colSumsOf (dets trks : List Box4) (iou_threshold : ℚ) : List ℕ :=
  (List.range trks.length).map
    (fun j => (List.range dets.length).countP (fun i => gtEntry dets trks iou_threshold i j))

/-- `np.stack(np.where(a), axis=1)`: the true positions of the binary
matrix in row-major order. -/
def whereList (dets trks : List Box4) (iou_threshold : ℚ) : List (ℕ × ℕ) :=
  (List.range dets.length).flatMap (fun i =>
    (List.range trks.length).filterMap (fun j =>
      if gtEntry dets trks iou_threshold i j then some (i, j) else none))

def matchedIndices (lsq : List (List PyF) → List (ℕ × ℕ))
    (dets trks : List Box4) (iou_threshold : ℚ) : List (ℕ × ℕ) :=
  if 0 < min dets.length trks.length then
    if (rowSumsOf dets trks iou_threshold).foldr max 0 = 1 ∧
        (colSumsOf dets trks iou_threshold).foldr max 0 = 1 then
      whereList dets trks iou_threshold
    else
      lsq (negIouMatrix dets trks)
  else []

/-- `associate_detections_to_trackers(detections, trackers, iou_threshold)`
(lines 222-278).  Returns `(matches, unmatched_detections,
unmatched_trackers)`.  With no trackers it returns immediately; otherwise
candidate pairs come from `matchedIndices` and the post-filter demotes any
candidate whose IoU is strictly below the threshold, appending its indices
to the unmatched lists in candidate order. -/
def associate_detections_to_trackers (lsq : List (List PyF) → List (ℕ × ℕ))
    (dets trks : List Box4) (iou_threshold : ℚ) :
    List (ℕ × ℕ) × List ℕ × List ℕ :=
  if trks.length = 0 then
    ([], List.range dets.length, [])
  else
    let iou_matrix := iou_batch dets trks
    let matched_indices := matchedIndices lsq dets trks iou_threshold
    let unmatched_detections := (List.range dets.length).filter
        (fun d => decide (d ∉ matched_indices.map Prod.fst))
    let unmatched_trackers := (List.range trks.length).filter
        (fun t => decide (t ∉ matched_indices.map Prod.snd))
    matched_indices.foldl
      (fun acc m =>
        if (matEntry iou_matrix m.1 m.2).ltQ iou_threshold then
          (acc.1, acc.2.1 ++ [m.1], acc.2.2 ++ [m.2])
        else
          (acc.1 ++ [m], acc.2.1, acc.2.2))
      (([] : List (ℕ × ℕ)), unmatched_detections, unmatched_trackers)

/-- Interface of the external Kalman filter (the filterpy dependency)
together with the state-space conversions applied at its boundary.  `σ` is
the filter's internal state (the vector `kf.x` and the covariances).  The
four operations stand for: the `__init__` filter wiring ending in
`kf.x[:4] = convert_bbox_to_z(bbox)`; the two lines `if kf.x[6]+kf.x[2] <= 0:
kf.x[6] = 0` followed by `kf.predict()`; `kf.update(convert_bbox_to_z(bbox))`;
and `convert_x_to_bbox(kf.x)[0]`.  All bookkeeping that the repository
performs around these calls is translated literally below, so every theorem
quantifying over `KFModel` holds for whatever the numeric backend does. -/
structure KFModel (σ : Type) where
  initState : Det → σ
  predictStep : σ → σ
  updateStep : σ → Det → σ
  readBox : σ → PBox

/-- The per-track state of `KalmanBoxTracker` (lines 159-219): the filter
state plus the bookkeeping counters.  Counters are naturals because the
Python code only ever sets them to 0 or increments them. -/
structure KalmanBoxTracker (σ : Type) where
  kf : σ
  time_since_update : ℕ
  id : ℕ
  history : List PBox
  hits : ℕ
  hit_streak : ℕ
  age : ℕ
deriving DecidableEq

/-- `KalmanBoxTracker.__init__(bbox)` (lines 164-186): the new track takes
the current class-level counter `KalmanBoxTracker.count` as its id and the
counter is incremented; all bookkeeping counters start at 0.  Returns the
new track together with the incremented counter. -/
def KalmanBoxTracker.build {σ : Type} (M : KFModel σ) (bbox : Det) (count : ℕ) :
    KalmanBoxTracker σ × ℕ :=
  (⟨M.initState bbox, 0, count, [], 0, 0, 0⟩, count + 1)

/-- `KalmanBoxTracker.update(bbox)` (lines 188-196): zero
`time_since_update`, clear the history, increment `hits` and `hit_streak`,
and apply the Kalman correction. -/
def KalmanBoxTracker.update {σ : Type} (M : KFModel σ) (t : KalmanBoxTracker σ)
    (bbox : Det) : KalmanBoxTracker σ :=
  { t with time_since_update := 0, history := [], hits := t.hits + 1,
           hit_streak := t.hit_streak + 1, kf := M.updateStep t.kf bbox }

/-- `KalmanBoxTracker.predict()` (lines 198-213): advance the filter,
increment `age`, reset `hit_streak` to 0 when `time_since_update` was
already positive, increment `time_since_update`, append the predicted box
to the history and return it. -/
def KalmanBoxTracker.predict {σ : Type} (M : KFModel σ) (t : KalmanBoxTracker σ) :
    KalmanBoxTracker σ × PBox :=
  let kf1 := M.predictStep t.kf
  let box := M.readBox kf1
  ({ t with kf := kf1, age := t.age + 1,
            hit_streak := if 0 < t.time_since_update then 0 else t.hit_streak,
            time_since_update := t.time_since_update + 1,
            history := t.history ++ [box] }, box)

/-- `KalmanBoxTracker.get_state()` (lines 215-219). -/
def KalmanBoxTracker.get_state {σ : Type} (M : KFModel σ) (t : KalmanBoxTracker σ) :
    PBox :=
  M.readBox t.kf

/-- The state of the `Sort` class (lines 281-290): parameters, the live
track list and the frame counter.  The class-level id counter
`KalmanBoxTracker.count` is process-wide state and is therefore threaded
separately through `SortTracker.update`. -/
structure SortTracker (σ : Type) where
  max_age : ℕ
  min_hits : ℕ
  iou_threshold : ℚ
  trackers : List (KalmanBoxTracker σ)
  frame_count : ℕ
deriving DecidableEq

/-- `Sort.__init__(max_age, min_hits, iou_threshold)`: stores the
parameters and starts with no trackers and `frame_count = 0`.  It does not
touch the class-level id counter. -/
def SortTracker.init {σ : Type} (max_age min_hits : ℕ) (iou_threshold : ℚ) :
    SortTracker σ :=
  ⟨max_age, min_hits, iou_threshold, [], 0⟩

/-- The predict loop of `Sort.update` (lines 304-311): every live tracker
steps once; each tracker is paired with the predicted box that fills its
row of `trks`. -/
def predictPhase {σ : Type} (M : KFModel σ) (ts : List (KalmanBoxTracker σ)) :
    List (KalmanBoxTracker σ × PBox) :=
  ts.map (fun t => t.predict M)

/-- The `to_del` list (lines 310-311): the indices, in increasing order,
of the trackers whose predicted position contains a NaN
(`np.any(np.isnan(pos))`).  Positive or negative infinities do not put a
tracker on this list. -/
def toDelIndices : List PBox → List ℕ
  | [] => []
  | b :: bs => (if b.hasNaN then [0] else []) ++ (toDelIndices bs).map (· + 1)

/-- The deletion loop `for t in reversed(to_del): self.trackers.pop(t)`
(lines 313-314): pop each listed index, largest first. -/
def popLoop {α : Type} (ts : List α) (idxs : List ℕ) : List α :=
  idxs.reverse.foldl (fun l i => l.eraseIdx i) ts

/-- `np.ma.compress_rows(np.ma.masked_invalid(trks))` (line 312): keep, in
order, the rows whose entries are all finite.  Each row is the predicted
box followed by a literal 0, so a row is valid exactly when its box is
all-finite. -/
def compressRows (boxes : List PBox) : List Box4 :=
  (boxes.filter PBox.allFinite).map PBox.toBox4

/-- The matched-update loop `for m in matched:
self.trackers[m[1]].update(dets[m[0], :])` (lines 318-319). -/
def updateMatched {σ : Type} (M : KFModel σ) (dets : List Det)
    (ts : List (KalmanBoxTracker σ)) (matched : List (ℕ × ℕ)) :
    List (KalmanBoxTracker σ) :=
  matched.foldl
    (fun l m => l.mapIdx (fun j t =>
      if j = m.2 then t.update M (dets.getD m.1 defaultDet) else t))
    ts

/-- The birth loop (lines 322-324): for each unmatched detection index, a
new `KalmanBoxTracker` is constructed (consuming one id from the
process-wide counter) and appended to the live list. -/
def birthPhase {σ : Type} (M : KFModel σ) (dets : List Det) (idxs : List ℕ)
    (ts : List (KalmanBoxTracker σ)) (count : ℕ) :
    List (KalmanBoxTracker σ) × ℕ :=
  idxs.foldl
    (fun acc i =>
      let b := KalmanBoxTracker.build M (dets.getD i defaultDet) acc.2
      (acc.1 ++ [b.1], b.2))
    (ts, count)

/-- The final walk of `Sort.update` (lines 325-333), processing the visited
suffix of the (reversed) live list.  Each visited track is emitted as
`(get_state, id+1)` when `time_since_update < 1` and (`hit_streak >=
min_hits` or `frame_count <= min_hits`), and then popped from the live list
when `time_since_update > max_age`.  Because every pop happens at exactly
the position just visited, the positions not yet visited are unaffected, so
the Python loop over `reversed(self.trackers)` with `self.trackers.pop(i)`
is this recursion applied to the reversed list: emissions accumulate in
visit order and survivors rebuild in original order. -/
def emissionWalkAux {σ : Type} (M : KFModel σ) (min_hits max_age frame_count : ℕ) :
    List (KalmanBoxTracker σ) → List (PBox × ℕ) × List (KalmanBoxTracker σ)
  | [] => ([], [])
  | t :: rest =>
    let acc := emissionWalkAux M min_hits max_age frame_count rest
    let e := if t.time_since_update < 1 ∧ (min_hits ≤ t.hit_streak ∨ frame_count ≤ min_hits)
             then [(t.get_state M, t.id + 1)] else []
    (e ++ acc.1, if max_age < t.time_since_update then acc.2 else acc.2 ++ [t])

/-- The final walk applied to the whole live list (the Python loop starts
at the last tracker). -/
def emissionWalk {σ : Type} (M : KFModel σ) (min_hits max_age frame_count : ℕ)
    (ts : List (KalmanBoxTracker σ)) :
    List (PBox × ℕ) × List (KalmanBoxTracker σ) :=
  emissionWalkAux M min_hits max_age frame_count ts.reverse

/-- The live list right after the NaN deletions (lines 304-314): the
stepped trackers with the `to_del` indices popped. -/
def postDelete {σ : Type} (M : KFModel σ) (ts : List (KalmanBoxTracker σ)) :
    List (KalmanBoxTracker σ) :=
  popLoop ((predictPhase M ts).map Prod.fst) (toDelIndices ((predictPhase M ts).map Prod.snd))

/-- The association call of `Sort.update` (line 315): detections against
the compressed finite predicted rows, at the instance's threshold.
`iou_batch` reads only columns 0..3 of each row, so the detections pass
their box part and the score column is never consulted. -/
def assocOf {σ : Type} (M : KFModel σ) (lsq : List (List PyF) → List (ℕ × ℕ))
    (s : SortTracker σ) (dets : List Det) :
    List (ℕ × ℕ) × List ℕ × List ℕ :=
  associate_detections_to_trackers lsq (dets.map Det.box)
    (compressRows ((predictPhase M s.trackers).map Prod.snd)) s.iou_threshold

/-- The live list after the matched-update loop (lines 318-319). -/
def postUpdate {σ : Type} (M : KFModel σ) (lsq : List (List PyF) → List (ℕ × ℕ))
    (s : SortTracker σ) (dets : List Det) : List (KalmanBoxTracker σ) :=
  updateMatched M dets (postDelete M s.trackers) (assocOf M lsq s dets).1

/-- The live list just before the final walk of `Sort.update`: the predict
loop, the NaN deletions, the association over the compressed rows, the
matched updates and the births, in source order (lines 301-324).  Returns
the post-birth list together with the advanced id counter. -/
def preEmission {σ : Type} (M : KFModel σ) (lsq : List (List PyF) → List (ℕ × ℕ))
    (s : SortTracker σ) (count : ℕ) (dets : List Det) :
    List (KalmanBoxTracker σ) × ℕ :=
  birthPhase M dets (assocOf M lsq s dets).2.1 (postUpdate M lsq s dets) count

/-- The result of one `Sort.update` call: the new tracker state, the new
value of the process-wide id counter, and the emitted rows (each the
current box estimate together with `id + 1`). -/
structure StepResult (σ : Type) where
  state : SortTracker σ
  count : ℕ
  ret : List (PBox × ℕ)
deriving DecidableEq

/-- `Sort.update(dets)` (lines 292-336): increment the frame counter, run
the predict / delete / associate / update / birth pipeline, then the final
emission-and-removal walk. -/
def SortTracker.update {σ : Type} (M : KFModel σ)
    (lsq : List (List PyF) → List (ℕ × ℕ)) (s : SortTracker σ) (count : ℕ)
    (dets : List Det) : StepResult σ :=
  let frame_count := s.frame_count + 1
  let pre := preEmission M lsq s count dets
  let walk := emissionWalk M s.min_hits s.max_age frame_count pre.1
  ⟨{ s with trackers := walk.2, frame_count := frame_count }, pre.2, walk.1⟩

/-- The states a `(Sort instance, id counter)` pair can reach: a freshly
constructed instance while the process-wide counter holds any value, and
closure under `Sort.update` on arbitrary detection input. -/
inductive Reachable {σ : Type} (M : KFModel σ)
    (lsq : List (List PyF) → List (ℕ × ℕ)) : SortTracker σ → ℕ → Prop where
  | base (max_age min_hits : ℕ) (iou_threshold : ℚ) (c : ℕ) :
      Reachable M lsq (SortTracker.init max_age min_hits iou_threshold) c
  | step (s : SortTracker σ) (c : ℕ) (dets : List Det)
      (h : Reachable M lsq s c) :
      Reachable M lsq (SortTracker.update M lsq s c dets).state
        (SortTracker.update M lsq s c dets).count

/-- A trivial filter backend over the unit state, used to run the model on
concrete inputs (the claims under test do not depend on filter numerics). -/
def unitKF : KFModel Unit :=
  ⟨fun _ => (), fun _ => (), fun _ _ => (), fun _ => ⟨PyF.fin 0, PyF.fin 0, PyF.fin 0, PyF.fin 0⟩⟩

/-- A filter backend whose predicted box always contains +inf (a
degenerate-filter scenario; no NaN coordinate). -/
def infKF : KFModel Unit :=
  ⟨fun _ => (), fun _ => (), fun _ _ => (), fun _ => ⟨PyF.inf, PyF.fin 0, PyF.fin 0, PyF.fin 0⟩⟩

/-- An assignment backend stub that returns no pairs. -/
def emptyLsq : List (List PyF) → List (ℕ × ℕ) := fun _ => []

/-- An assignment backend stub returning the unique complete assignment of
a 1 x 1 cost matrix, as any real backend does. -/
def oneLsq : List (List PyF) → List (ℕ × ℕ) := fun _ => [(0, 0)]

/-- A concrete detection used by witnesses and counterexamples. -/
def det0 : Det := ⟨100, 100, 200, 200, 1⟩

/-- A concrete live track over the unit filter state (id 0, fresh
counters), used by witnesses. -/
def trackerU0 : KalmanBoxTracker Unit := ⟨(), 0, 0, [], 0, 0, 0⟩

/-- A concrete tracker state holding one live track after one frame, used
by witnesses. -/
def stateW : SortTracker Unit := ⟨1, 3, 3/10, [trackerU0], 1⟩

/-- One frame of the degenerate-filter scenario: a fresh tracker instance
receives one detection, so one track is born. -/
def infStep1 : StepResult Unit :=
  SortTracker.update infKF emptyLsq (SortTracker.init 1 3 (3/10)) 0 [det0]

/-- Second frame of the degenerate-filter scenario: no detections; the
live track's predicted box is `[+inf, 0, 0, 0]` (non-finite, NaN-free). -/
def infStep2 : StepResult Unit :=
  SortTracker.update infKF emptyLsq infStep1.state infStep1.count []

/-- First frame of a two-instance run: a fresh tracker instance consumes
one detection, so the process-wide id counter advances from 0 to 1. -/
def counterStep1 : StepResult Unit :=
  SortTracker.update unitKF emptyLsq (SortTracker.init 1 3 (3/10)) 0 [det0]

/-- First frame of a second, freshly constructed tracker instance in the
same process, starting from the counter value `counterStep1` left behind. -/
def counterStep2 : StepResult Unit :=
  SortTracker.update unitKF emptyLsq (SortTracker.init 1 3 (3/10)) counterStep1.count [det0]

/-- A bounding box `[x1, y1, x2, y2]` over the reals, for the state-space
conversions (which involve a square root and therefore live in `ℝ`). -/
structure RBox where
  x1 : ℝ
  y1 : ℝ
  x2 : ℝ
  y2 : ℝ

/-- An observation-space vector `[x, y, s, r]`: center, area, aspect
ratio. -/
structure ZVec where
  x : ℝ
  y : ℝ
  s : ℝ
  r : ℝ

/-- `convert_bbox_to_z(bbox)` (lines 131-143): `w = x2 - x1`,
`h = y2 - y1`, center `(x1 + w/2, y1 + h/2)`, scale `s = w * h`, aspect
ratio `r = w / h`. -/
noncomputable def convert_bbox_to_z (bbox : RBox) : ZVec :=
  let w := bbox.x2 - bbox.x1
  let h := bbox.y2 - bbox.y1
  ⟨bbox.x1 + w / 2, bbox.y1 + h / 2, w * h, w / h⟩

/-- `convert_x_to_bbox(x)` (lines 146-156, `score = None` branch):
`w = sqrt(s * r)`, `h = s / w`, corners at the center plus/minus half the
extents. -/
noncomputable def convert_x_to_bbox (v : ZVec) : RBox :=
  let w := Real.sqrt (v.s * v.r)
  let h := v.s / w
  ⟨v.x - w / 2, v.y - h / 2, v.x + w / 2, v.y + h / 2⟩

/-! Helper lemmas about the embedded phases, shared by the claim
theorems.  The rational operations are unsealed first so that concrete
runs of the model reduce under kernel evaluation. -/

attribute [local semireducible] Rat.mul Rat.add Rat.sub Rat.inv Rat.ofScientific

/-- The emitted list built by the final walk is the filterMap of the
emission condition over the visited list. -/
lemma emissionWalkAux_fst {σ : Type} (M : KFModel σ) (mh ma fc : ℕ)
    (l : List (KalmanBoxTracker σ)) :
    (emissionWalkAux M mh ma fc l).1 = l.filterMap (fun t =>
      if t.time_since_update < 1 ∧ (mh ≤ t.hit_streak ∨ fc ≤ mh)
      then some (t.get_state M, t.id + 1) else none) := by
  induction l with
  | nil => rfl
  | cons t rest ih =>
    simp only [emissionWalkAux, List.filterMap_cons]
    by_cases h : t.time_since_update = 0 ∧ (mh ≤ t.hit_streak ∨ fc ≤ mh)
    · simp [h, ih, Nat.lt_one_iff]
    · simp [h, ih, Nat.lt_one_iff]

/-- The survivor list built by the final walk keeps exactly the visited
tracks whose `time_since_update` is at most `max_age`, in reverse visit
order. -/
lemma emissionWalkAux_snd {σ : Type} (M : KFModel σ) (mh ma fc : ℕ)
    (l : List (KalmanBoxTracker σ)) :
    (emissionWalkAux M mh ma fc l).2 =
      (l.filter (fun t => decide (t.time_since_update ≤ ma))).reverse := by
  induction l with
  | nil => rfl
  | cons t rest ih =>
    simp only [emissionWalkAux, List.filter_cons]
    by_cases h : ma < t.time_since_update
    · have hd : decide (t.time_since_update ≤ ma) = false := by
        simpa using Nat.not_le.mpr h
      simp [h, hd, ih]
    · have hd : decide (t.time_since_update ≤ ma) = true := by
        simpa using Nat.not_lt.mp h
      simp [h, hd, ih]

/-- The final walk over the whole live list: emissions in reverse list
order. -/
lemma emissionWalk_fst {σ : Type} (M : KFModel σ) (mh ma fc : ℕ)
    (ts : List (KalmanBoxTracker σ)) :
    (emissionWalk M mh ma fc ts).1 = ts.reverse.filterMap (fun t =>
      if t.time_since_update < 1 ∧ (mh ≤ t.hit_streak ∨ fc ≤ mh)
      then some (t.get_state M, t.id + 1) else none) :=
  emissionWalkAux_fst M mh ma fc ts.reverse

/-- The final walk over the whole live list: survivors are the filter of
the not-expired condition, in original order. -/
lemma emissionWalk_snd {σ : Type} (M : KFModel σ) (mh ma fc : ℕ)
    (ts : List (KalmanBoxTracker σ)) :
    (emissionWalk M mh ma fc ts).2 =
      ts.filter (fun t => decide (t.time_since_update ≤ ma)) := by
  unfold emissionWalk
  rw [emissionWalkAux_snd, List.filter_reverse, List.reverse_reverse]

/-- Closed form of the post-filter fold of
`associate_detections_to_trackers`: kept candidates become matches in
order, demoted candidates append their indices to the unmatched lists in
order. -/
lemma foldPost_eq (im : List (List PyF)) (thr : ℚ) (ms : List (ℕ × ℕ))
    (acc : List (ℕ × ℕ) × List ℕ × List ℕ) :
    ms.foldl (fun acc m =>
        if (matEntry im m.1 m.2).ltQ thr then
          (acc.1, acc.2.1 ++ [m.1], acc.2.2 ++ [m.2])
        else (acc.1 ++ [m], acc.2.1, acc.2.2)) acc =
      (acc.1 ++ ms.filter (fun m => !(matEntry im m.1 m.2).ltQ thr),
       acc.2.1 ++ (ms.filter (fun m => (matEntry im m.1 m.2).ltQ thr)).map Prod.fst,
       acc.2.2 ++ (ms.filter (fun m => (matEntry im m.1 m.2).ltQ thr)).map Prod.snd) := by
  induction ms generalizing acc with
  | nil => simp
  | cons m ms ih =>
    simp only [List.foldl_cons, List.filter_cons]
    by_cases h : (matEntry im m.1 m.2).ltQ thr = true
    · simp [h, ih]
    · simp only [Bool.not_eq_true] at h
      simp [h, ih]

/-- Closed form of `associate_detections_to_trackers` when the tracker
list is nonempty. -/
lemma associate_eq (lsq : List (List PyF) → List (ℕ × ℕ)) (dets trks : List Box4)
    (thr : ℚ) (h : trks.length ≠ 0) :
    associate_detections_to_trackers lsq dets trks thr =
      ((matchedIndices lsq dets trks thr).filter
          (fun m => !(matEntry (iou_batch dets trks) m.1 m.2).ltQ thr),
       (List.range dets.length).filter
           (fun d => decide (d ∉ (matchedIndices lsq dets trks thr).map Prod.fst))
         ++ ((matchedIndices lsq dets trks thr).filter
              (fun m => (matEntry (iou_batch dets trks) m.1 m.2).ltQ thr)).map Prod.fst,
       (List.range trks.length).filter
           (fun t => decide (t ∉ (matchedIndices lsq dets trks thr).map Prod.snd))
         ++ ((matchedIndices lsq dets trks thr).filter
              (fun m => (matEntry (iou_batch dets trks) m.1 m.2).ltQ thr)).map Prod.snd) := by
  unfold associate_detections_to_trackers
  rw [if_neg h]
  simpa using foldPost_eq (iou_batch dets trks) thr (matchedIndices lsq dets trks thr) _

/-- C5: during every call to `Sort.update`, the final emission/removal
walk removes a live track exactly when its `time_since_update` is strictly
greater than `max_age`: the tracker list surviving into the next frame is
precisely the filter of `time_since_update <= max_age` over the pre-walk
live list (order preserved), so tracks with `time_since_update <= max_age`
survive and all others are removed. -/
theorem sort_update_removes_exactly_expired {σ : Type} (M : KFModel σ)
    (lsq : List (List PyF) → List (ℕ × ℕ)) (s : SortTracker σ) (count : ℕ)
    (dets : List Det) :
    (SortTracker.update M lsq s count dets).state.trackers =
      (preEmission M lsq s count dets).1.filter
        (fun t => decide (t.time_since_update ≤ s.max_age)) :=
  emissionWalk_snd M s.min_hits s.max_age (s.frame_count + 1)
    (preEmission M lsq s count dets).1

/-- C3: no pair emitted in the matches of
`associate_detections_to_trackers` has IoU strictly below the threshold
(the numpy comparison `iou_matrix[m] < iou_threshold` is false on every
emitted match, whatever the assignment backend returned), and every
candidate pair from the fast path or the solver whose IoU is strictly
below the threshold is demoted to both unmatched sets. -/
theorem associate_matches_never_below_threshold
    (lsq : List (List PyF) → List (ℕ × ℕ)) (dets trks : List Box4) (thr : ℚ) :
    (∀ m ∈ (associate_detections_to_trackers lsq dets trks thr).1,
      (matEntry (iou_batch dets trks) m.1 m.2).ltQ thr = false) ∧
    (∀ m ∈ matchedIndices lsq dets trks thr,
      (matEntry (iou_batch dets trks) m.1 m.2).ltQ thr = true →
        m.1 ∈ (associate_detections_to_trackers lsq dets trks thr).2.1 ∧
        m.2 ∈ (associate_detections_to_trackers lsq dets trks thr).2.2) := by
  by_cases h : trks.length = 0
  · constructor
    · intro m hm
      unfold associate_detections_to_trackers at hm
      rw [if_pos h] at hm
      simp at hm
    · intro m hm
      have hmin : min dets.length trks.length = 0 := by omega
      simp [matchedIndices, hmin] at hm
  · rw [associate_eq lsq dets trks thr h]
    constructor
    · intro m hm
      have := (List.mem_filter.mp hm).2
      simpa using this
    · intro m hm hlt
      refine ⟨List.mem_append_right _ ?_, List.mem_append_right _ ?_⟩
      · exact List.mem_map.mpr ⟨m, List.mem_filter.mpr ⟨hm, hlt⟩, rfl⟩
      · exact List.mem_map.mpr ⟨m, List.mem_filter.mpr ⟨hm, hlt⟩, rfl⟩

/-- Witness for C3 at a concrete input: one detection and one identical
tracker box match with IoU 1, and the matched pair's IoU is not below the
threshold 3/10. -/
theorem associate_matches_never_below_threshold_witness :
    ((0, 0) ∈ (associate_detections_to_trackers emptyLsq [⟨0, 0, 10, 10⟩]
      [⟨0, 0, 10, 10⟩] (3/10)).1) ∧
    (matEntry (iou_batch [⟨0, 0, 10, 10⟩] [⟨0, 0, 10, 10⟩]) 0 0).ltQ (3/10) = false :=
  ⟨by decide,
   (associate_matches_never_below_threshold emptyLsq [⟨0, 0, 10, 10⟩]
     [⟨0, 0, 10, 10⟩] (3/10)).1 (0, 0) (by decide)⟩

/-- The matched-update loop keeps the live list's length. -/
lemma updateMatched_length {σ : Type} (M : KFModel σ) (dets : List Det)
    (ts : List (KalmanBoxTracker σ)) (ms : List (ℕ × ℕ)) :
    (updateMatched M dets ts ms).length = ts.length := by
  unfold updateMatched
  induction ms generalizing ts with
  | nil => rfl
  | cons m ms ih =>
    simp only [List.foldl_cons]
    rw [ih]
    simp

/-- A position not named by any match's tracker index is untouched by the
matched-update loop. -/
lemma updateMatched_getD_not_mem {σ : Type} (M : KFModel σ) (dets : List Det)
    (ts : List (KalmanBoxTracker σ)) (ms : List (ℕ × ℕ)) (j : ℕ)
    (d : KalmanBoxTracker σ) :
    j ∉ ms.map Prod.snd → (updateMatched M dets ts ms).getD j d = ts.getD j d := by
  unfold updateMatched
  induction ms generalizing ts with
  | nil => exact fun _ => rfl
  | cons m ms ih =>
    intro hj
    simp only [List.map_cons, List.mem_cons, not_or] at hj
    simp only [List.foldl_cons]
    rw [ih _ hj.2]
    by_cases hlt : j < ts.length
    · rw [List.getD_eq_getElem _ _ (by simpa using hlt), List.getD_eq_getElem _ _ hlt]
      simp [hj.1]
    · rw [List.getD_eq_default _ _ (by simpa using Nat.not_lt.mp hlt),
          List.getD_eq_default _ _ (Nat.not_lt.mp hlt)]

/-- Every element surviving the pop loop was in the original list. -/
lemma popLoop_subset {α : Type} (idxs : List ℕ) (ts : List α) :
    ∀ x ∈ popLoop ts idxs, x ∈ ts := by
  unfold popLoop
  generalize idxs.reverse = js
  induction js generalizing ts with
  | nil => exact fun x hx => hx
  | cons j js ih =>
    intro x hx
    exact List.eraseIdx_subset _ _ (ih (ts.eraseIdx j) x hx)

/-- Every track that went through the predict loop (and survived the NaN
deletions) has `time_since_update ≥ 1`: `predict` increments it. -/
lemma postDelete_tsu {σ : Type} (M : KFModel σ) (ts : List (KalmanBoxTracker σ)) :
    ∀ t ∈ postDelete M ts, 1 ≤ t.time_since_update := by
  intro t ht
  have hmem := popLoop_subset _ _ t ht
  obtain ⟨p, hp, rfl⟩ := List.mem_map.mp hmem
  obtain ⟨u, _, rfl⟩ := List.mem_map.mp hp
  simp [KalmanBoxTracker.predict]

/-- C4: in every call to `Sort.update`, the emitted list is exactly the
tracks of the pre-walk live list (walked in reverse order) satisfying
`time_since_update < 1` and (`hit_streak >= min_hits` or the incremented
`frame_count <= min_hits`); and a live track that survived the predict
phase but was not matched this frame still has `time_since_update >= 1`
when the walk runs, hence fails the emission condition and is not emitted
this frame even if it stays alive. -/
theorem sort_update_emits_iff {σ : Type} (M : KFModel σ)
    (lsq : List (List PyF) → List (ℕ × ℕ)) (s : SortTracker σ) (count : ℕ)
    (dets : List Det) (d : KalmanBoxTracker σ) :
    ((SortTracker.update M lsq s count dets).ret =
      (preEmission M lsq s count dets).1.reverse.filterMap (fun t =>
        if t.time_since_update < 1 ∧
            (s.min_hits ≤ t.hit_streak ∨ s.frame_count + 1 ≤ s.min_hits)
        then some (t.get_state M, t.id + 1) else none)) ∧
    (∀ j, j < (postUpdate M lsq s dets).length →
      j ∉ (assocOf M lsq s dets).1.map Prod.snd →
      1 ≤ ((postUpdate M lsq s dets).getD j d).time_since_update) := by
  constructor
  · exact emissionWalk_fst M s.min_hits s.max_age (s.frame_count + 1)
      (preEmission M lsq s count dets).1
  · intro j hj hnm
    unfold postUpdate at hj ⊢
    rw [updateMatched_length] at hj
    rw [updateMatched_getD_not_mem _ _ _ _ _ _ hnm,
        List.getD_eq_getElem _ _ hj]
    exact postDelete_tsu M s.trackers _ (List.getElem_mem hj)

/-- Witness for C4 at a concrete input: one live track, no detections; the
track goes unmatched, its `time_since_update` is 1 at walk time. -/
theorem sort_update_emits_iff_witness :
    1 ≤ ((postUpdate unitKF emptyLsq stateW []).getD 0 trackerU0).time_since_update :=
  (sort_update_emits_iff unitKF emptyLsq stateW 0 [] trackerU0).2 0 (by decide) (by decide)

/-- Erasing only shifted (nonzero) indices leaves the head untouched. -/
lemma foldl_eraseIdx_map_succ {α : Type} (js : List ℕ) (t : α) (ts : List α) :
    (js.map (· + 1)).foldl (fun l i => l.eraseIdx i) (t :: ts) =
      t :: js.foldl (fun l i => l.eraseIdx i) ts := by
  induction js generalizing ts with
  | nil => rfl
  | cons j js ih =>
    simp only [List.map_cons, List.foldl_cons, List.eraseIdx_cons_succ]
    exact ih _

/-- The reversed-pop loop over the NaN indices removes exactly the
elements paired with a NaN-containing box, preserving order. -/
lemma popLoop_toDel {α : Type} (l : List (α × PBox)) :
    popLoop (l.map Prod.fst) (toDelIndices (l.map Prod.snd)) =
      (l.filter (fun p => !p.2.hasNaN)).map Prod.fst := by
  induction l with
  | nil => rfl
  | cons p l ih =>
    unfold popLoop at ih ⊢
    simp only [List.map_cons, toDelIndices]
    by_cases h : p.2.hasNaN = true
    · rw [if_pos h]
      have h0 : (([0] : List ℕ) ++ (toDelIndices (l.map Prod.snd)).map (· + 1)) =
          0 :: (toDelIndices (l.map Prod.snd)).map (· + 1) := rfl
      rw [h0, List.reverse_cons, List.foldl_append, ← List.map_reverse,
          foldl_eraseIdx_map_succ]
      simp only [List.foldl_cons, List.foldl_nil, List.eraseIdx_cons_zero]
      rw [List.filter_cons]
      simp [h, ih]
    · rw [if_neg h]
      simp only [List.nil_append]
      rw [← List.map_reverse, foldl_eraseIdx_map_succ]
      rw [List.filter_cons]
      simp only [Bool.not_eq_true] at h
      simp [h, ih]

/-- A finite float is not NaN. -/
lemma PyF.isFinite_isNaN (v : PyF) : v.isFinite = true → v.isNaN = false := by
  cases v <;> simp [PyF.isFinite, PyF.isNaN]

/-- A NaN coordinate makes the all-finite check fail. -/
lemma PBox.allFinite_hasNaN (b : PBox) : b.allFinite = true → b.hasNaN = false := by
  cases b with
  | mk p0 p1 p2 p3 =>
    intro h
    simp only [PBox.allFinite, Bool.and_eq_true] at h
    simp only [PBox.hasNaN, Bool.or_eq_false_iff]
    exact ⟨⟨⟨PyF.isFinite_isNaN _ h.1.1.1, PyF.isFinite_isNaN _ h.1.1.2⟩,
      PyF.isFinite_isNaN _ h.1.2⟩, PyF.isFinite_isNaN _ h.2⟩

/-- C2 (amended): in every `Sort.update` call, a live track whose
predicted box contains a NaN coordinate is removed from the live set (the
post-deletion list is exactly the filter of the NaN-free predictions), and
the association rows are exactly the all-finite predicted boxes; when
every non-finite predicted box contains a NaN — in particular whenever no
infinity occurs without a NaN — the surviving tracks align index-for-index
with the rows handed to the association solver.  A track whose predicted
box contains an infinity but no NaN is excluded from the association rows
yet kept in the live set, which is what the original claim ruled out. -/
theorem nan_tracks_removed_inf_tracks_kept {σ : Type} (M : KFModel σ)
    (ts : List (KalmanBoxTracker σ)) :
    (postDelete M ts =
      ((predictPhase M ts).filter (fun p => !p.2.hasNaN)).map Prod.fst) ∧
    ((∀ b ∈ (predictPhase M ts).map Prod.snd, b.hasNaN = true ∨ b.allFinite = true) →
      compressRows ((predictPhase M ts).map Prod.snd) =
        ((predictPhase M ts).filter (fun p => !p.2.hasNaN)).map
          (fun p => p.2.toBox4)) := by
  constructor
  · exact popLoop_toDel (predictPhase M ts)
  · intro hprov
    unfold compressRows
    rw [List.filter_map, List.map_map]
    have : (predictPhase M ts).filter (PBox.allFinite ∘ Prod.snd) =
        (predictPhase M ts).filter (fun p => !p.2.hasNaN) := by
      apply List.filter_congr
      intro p hp
      rcases hprov p.2 (List.mem_map.mpr ⟨p, hp, rfl⟩) with h | h
      · have hf : p.2.allFinite = false := by
          cases hfin : p.2.allFinite
          · rfl
          · rw [PBox.allFinite_hasNaN _ hfin] at h
            exact absurd h (by simp)
        simp [Function.comp, h, hf]
      · simp [Function.comp, h, PBox.allFinite_hasNaN _ h]
    rw [this]
    rfl

/-- Counterexample for C2 as stated: after a birth frame, the single live
track's predicted box is `[+inf, 0, 0, 0]` — non-finite but NaN-free.  In
the next `Sort.update` call it is excluded from the association rows (the
compressed row list is empty) yet it is NOT removed from the live set: the
claim required every track with a non-finite predicted coordinate to be
removed. -/
theorem inf_predicted_track_not_removed :
    (infStep2.state.trackers.map (fun t => t.id) = [0]) ∧
    compressRows ((predictPhase infKF infStep1.state.trackers).map Prod.snd) = [] := by
  decide

/-- Witness for the amended C2 at a concrete input: with an all-finite
predicted box, the association rows align with the surviving tracks. -/
theorem nan_tracks_removed_inf_tracks_kept_witness :
    compressRows ((predictPhase unitKF [trackerU0]).map Prod.snd) =
      ((predictPhase unitKF [trackerU0]).filter (fun p => !p.2.hasNaN)).map
        (fun p => p.2.toBox4) :=
  (nan_tracks_removed_inf_tracks_kept unitKF [trackerU0]).2 (by decide)

/-- A filterMap whose function hits on every element is a map. -/
lemma filterMap_eq_map_of_forall {α β : Type} (f : α → Option β) (g : α → β)
    (l : List α) (h : ∀ x ∈ l, f x = some (g x)) : l.filterMap f = l.map g := by
  induction l with
  | nil => rfl
  | cons a l ih =>
    simp [List.filterMap_cons, h a (List.mem_cons_self a l),
      ih (fun x hx => h x (List.mem_cons_of_mem _ hx))]

/-- The components of one `Sort.update` call, read off its definition. -/
lemma sortUpdate_parts {σ : Type} (M : KFModel σ)
    (lsq : List (List PyF) → List (ℕ × ℕ)) (s : SortTracker σ) (c : ℕ)
    (dets : List Det) :
    (SortTracker.update M lsq s c dets).state.trackers =
      (emissionWalk M s.min_hits s.max_age (s.frame_count + 1)
        (preEmission M lsq s c dets).1).2 ∧
    (SortTracker.update M lsq s c dets).count = (preEmission M lsq s c dets).2 ∧
    (SortTracker.update M lsq s c dets).ret =
      (emissionWalk M s.min_hits s.max_age (s.frame_count + 1)
        (preEmission M lsq s c dets).1).1 :=
  ⟨rfl, rfl, rfl⟩

/-- The birth loop appends one fresh track per index; the assigned ids are
the consecutive counter values. -/
lemma birthPhase_ids {σ : Type} (M : KFModel σ) (dets : List Det) (idxs : List ℕ) :
    ∀ (ts : List (KalmanBoxTracker σ)) (c : ℕ),
    (birthPhase M dets idxs ts c).1.map (fun t => t.id) =
      ts.map (fun t => t.id) ++ List.range' c idxs.length := by
  induction idxs with
  | nil => intro ts c; simp [birthPhase]
  | cons i idxs ih =>
    intro ts c
    have h := ih (ts ++ [(KalmanBoxTracker.build M (dets.getD i defaultDet) c).1]) (c + 1)
    have h2 : (birthPhase M dets (i :: idxs) ts c).1.map (fun t => t.id) =
        (ts ++ [(KalmanBoxTracker.build M (dets.getD i defaultDet) c).1]).map (fun t => t.id)
          ++ List.range' (c + 1) idxs.length := h
    rw [h2]
    simp [KalmanBoxTracker.build, List.range'_succ]

/-- The birth loop advances the id counter by the number of births. -/
lemma birthPhase_snd {σ : Type} (M : KFModel σ) (dets : List Det) (idxs : List ℕ) :
    ∀ (ts : List (KalmanBoxTracker σ)) (c : ℕ),
    (birthPhase M dets idxs ts c).2 = c + idxs.length := by
  induction idxs with
  | nil => intro ts c; rfl
  | cons i idxs ih =>
    intro ts c
    have h : (birthPhase M dets (i :: idxs) ts c).2 = (c + 1) + idxs.length :=
      ih (ts ++ [(KalmanBoxTracker.build M (dets.getD i defaultDet) c).1]) (c + 1)
    rw [h, List.length_cons]
    omega

/-- Every element of the post-birth list is either an old element or a
freshly built track with all counters at zero. -/
lemma birthPhase_mem {σ : Type} (M : KFModel σ) (dets : List Det) (idxs : List ℕ) :
    ∀ (ts : List (KalmanBoxTracker σ)) (c : ℕ),
    ∀ t ∈ (birthPhase M dets idxs ts c).1, t ∈ ts ∨
      (t.time_since_update = 0 ∧ t.hit_streak = 0 ∧ t.hits = 0 ∧ t.age = 0) := by
  induction idxs with
  | nil => intro ts c t ht; exact Or.inl ht
  | cons i idxs ih =>
    intro ts c t ht
    have ht2 : t ∈ (birthPhase M dets idxs
        (ts ++ [(KalmanBoxTracker.build M (dets.getD i defaultDet) c).1]) (c + 1)).1 := ht
    rcases ih _ (c + 1) t ht2 with hmem | hfresh
    · rcases List.mem_append.mp hmem with hold | hnew
      · exact Or.inl hold
      · simp only [List.mem_singleton] at hnew
        subst hnew
        exact Or.inr ⟨rfl, rfl, rfl, rfl⟩
    · exact Or.inr hfresh

/-- C1 (amended): `Sort.__init__` does not reset the class-level id
counter.  On the first frame of a freshly constructed instance, when the
process-wide counter holds `c`, the tracks born from the `n` detections
get the consecutive internal ids `c, c+1, ..., c+n-1` — so the first track
born is assigned `c`, which is 0 only when no track was ever built in the
process — the counter advances to `c + n`, and the emitted identifiers are
the internal ids plus one. -/
theorem fresh_instance_first_id_from_counter {σ : Type} (M : KFModel σ)
    (lsq : List (List PyF) → List (ℕ × ℕ)) (ma mh : ℕ) (thr : ℚ) (c : ℕ)
    (dets : List Det) :
    ((SortTracker.update M lsq (SortTracker.init ma mh thr) c dets).state.trackers.map
        (fun t => t.id) = List.range' c dets.length) ∧
    ((SortTracker.update M lsq (SortTracker.init ma mh thr) c dets).count =
        c + dets.length) ∧
    ((SortTracker.update M lsq (SortTracker.init ma mh thr) c dets).ret.map Prod.snd =
        (List.range' (c + 1) dets.length).reverse) := by
  have hassoc : assocOf M lsq (SortTracker.init ma mh thr) dets =
      ([], List.range dets.length, []) := by
    unfold assocOf
    simp [SortTracker.init, predictPhase, compressRows,
      associate_detections_to_trackers]
  have hpre : preEmission M lsq (SortTracker.init ma mh thr) c dets =
      birthPhase M dets (List.range dets.length) [] c := by
    unfold preEmission postUpdate postDelete
    rw [hassoc]
    simp [SortTracker.init, predictPhase, toDelIndices, popLoop, updateMatched]
  have hfresh : ∀ t ∈ (preEmission M lsq (SortTracker.init ma mh thr) c dets).1,
      t.time_since_update = 0 ∧ t.hit_streak = 0 := by
    intro t ht
    rw [hpre] at ht
    rcases birthPhase_mem M dets (List.range dets.length) [] c t ht with hmem | hf
    · exact absurd hmem (List.not_mem_nil t)
    · exact ⟨hf.1, hf.2.1⟩
  obtain ⟨h1, h2, h3⟩ := sortUpdate_parts M lsq (SortTracker.init ma mh thr) c dets
  refine ⟨?_, ?_, ?_⟩
  · rw [h1, emissionWalk_snd]
    have : ((preEmission M lsq (SortTracker.init ma mh thr) c dets).1.filter
        (fun t => decide (t.time_since_update ≤ (SortTracker.init (σ := σ) ma mh thr).max_age))) =
        (preEmission M lsq (SortTracker.init ma mh thr) c dets).1 := by
      apply List.filter_eq_self.mpr
      intro t ht
      rw [(hfresh t ht).1]
      simp
    rw [this, hpre, birthPhase_ids]
    simp
  · rw [h2, hpre, birthPhase_snd]
    simp
  · rw [h3, emissionWalk_fst]
    rw [filterMap_eq_map_of_forall _
      (fun t => (t.get_state M, t.id + 1)) _ ?hall]
    case hall =>
      intro t ht
      obtain ⟨ht0, hs0⟩ := hfresh t (List.mem_reverse.mp ht)
      have hcond : t.time_since_update < 1 ∧
          ((SortTracker.init (σ := σ) ma mh thr).min_hits ≤ t.hit_streak ∨
            (SortTracker.init (σ := σ) ma mh thr).frame_count + 1 ≤
              (SortTracker.init (σ := σ) ma mh thr).min_hits) := by
      -- warmup disjunction: either min_hits = 0 (streak clause) or 1 ≤ min_hits
        refine ⟨by omega, ?_⟩
        rcases Nat.eq_zero_or_pos mh with hz | hp
        · exact Or.inl (by simp [SortTracker.init, hz, hs0])
        · exact Or.inr (by simp [SortTracker.init]; omega)
      rw [if_pos hcond]
    rw [List.map_reverse, List.map_reverse, List.map_map]
    rw [show (Prod.snd ∘ fun t : KalmanBoxTracker σ =>
        (t.get_state M, t.id + 1)) = (fun t : KalmanBoxTracker σ => t.id + 1) from rfl]
    rw [hpre]
    have : (birthPhase M dets (List.range dets.length) [] c).1.map
        (fun t : KalmanBoxTracker σ => t.id + 1) =
        ((birthPhase M dets (List.range dets.length) [] c).1.map
          (fun t => t.id)).map (fun x => 1 + x) := by
      rw [List.map_map]
      apply List.map_congr_left
      intro t _
      simp [Nat.add_comm]
    rw [this, birthPhase_ids]
    simp only [List.map_nil, List.nil_append, List.length_range]
    rw [List.map_add_range']
    simp [Nat.add_comm]

/-- Counterexample for C1 as stated: after one fresh instance tracks one
detection (advancing the process-wide counter to 1), a second freshly
constructed instance gives its first born track internal id 1 and emits it
with identifier 2 — not internal id 0 / identifier 1 as the claim
required. -/
theorem fresh_instance_counter_not_reset :
    (counterStep2.state.trackers.map (fun t => t.id) = [1]) ∧
    (counterStep2.ret.map Prod.snd = [2]) ∧
    counterStep2.state.trackers.map (fun t => t.id) ≠ [0] := by
  decide

/-- C8: for every box with positive width and height, converting to
observation space and back is the identity: `convert_x_to_bbox`
(which recovers `w = sqrt(s * r)` and `h = s / w`) inverts
`convert_bbox_to_z` exactly. -/
theorem convert_roundtrip (b : RBox) (hw : b.x1 < b.x2) (hh : b.y1 < b.y2) :
    convert_x_to_bbox (convert_bbox_to_z b) = b := by
  cases b with
  | mk x1 y1 x2 y2 =>
    simp only at hw hh
    have hw' : (0:ℝ) < x2 - x1 := by linarith
    have hh' : (0:ℝ) < y2 - y1 := by linarith
    have hsqrt : Real.sqrt ((x2 - x1) * (y2 - y1) * ((x2 - x1) / (y2 - y1))) = x2 - x1 := by
      rw [show (x2 - x1) * (y2 - y1) * ((x2 - x1) / (y2 - y1)) = (x2 - x1) ^ 2 by
        field_simp; ring, Real.sqrt_sq hw'.le]
    have hdiv : (x2 - x1) * (y2 - y1) / (x2 - x1) = y2 - y1 := by
      rw [mul_comm, mul_div_assoc, div_self hw'.ne', mul_one]
    unfold convert_bbox_to_z convert_x_to_bbox
    simp only [RBox.mk.injEq]
    rw [hsqrt, hdiv]
    refine ⟨by ring, by ring, by ring, by ring⟩

/-- Witness for C8 at the unit box. -/
theorem convert_roundtrip_witness :
    convert_x_to_bbox (convert_bbox_to_z ⟨0, 0, 1, 1⟩) = (⟨0, 0, 1, 1⟩ : RBox) :=
  convert_roundtrip ⟨0, 0, 1, 1⟩ (by norm_num) (by norm_num)

/-- An in-range entry of the IoU matrix is the IoU of the corresponding
boxes. -/
lemma matEntry_iou_batch (dets trks : List Box4) (i j : ℕ)
    (hi : i < dets.length) (hj : j < trks.length) :
    matEntry (iou_batch dets trks) i j =
      iou (dets.getD i ⟨0, 0, 0, 0⟩) (trks.getD j ⟨0, 0, 0, 0⟩) := by
  unfold matEntry iou_batch
  have h1 : (List.map (fun d => List.map (fun t => iou d t) trks) dets).getD i [] =
      List.map (fun t => iou (dets.getD i ⟨0, 0, 0, 0⟩) t) trks := by
    rw [List.getD_eq_getElem _ _ (by simpa using hi), List.getElem_map,
        List.getD_eq_getElem _ _ hi]
  rw [h1, List.getD_eq_getElem _ _ (by simpa using hj), List.getElem_map,
      List.getD_eq_getElem _ _ hj]

/-- C9 (amended): a detection with zero or negative extent has zero
clamped intersection with every box; whenever the signed-area sum
`area(det) + area(trk)` is nonzero, its IoU is exactly 0 and, with a
positive threshold, the pair is never kept as a match (any candidate
containing it is demoted by the post-filter); but when
`area(det) = -area(trk)` the IoU is NaN (numpy's 0/0), not zero. -/
theorem degenerate_det_iou (d t : Box4) (hdeg : d.x2 ≤ d.x1 ∨ d.y2 ≤ d.y1) :
    interArea d t = 0 ∧
    (area d + area t ≠ 0 → iou d t = PyF.fin 0) ∧
    (area d + area t = 0 → iou d t = PyF.nan) ∧
    (∀ (lsq : List (List PyF) → List (ℕ × ℕ)) (dets trks : List Box4)
        (thr : ℚ) (i j : ℕ),
      i < dets.length → dets.getD i ⟨0, 0, 0, 0⟩ = d →
      j < trks.length → trks.getD j ⟨0, 0, 0, 0⟩ = t →
      area d + area t ≠ 0 → 0 < thr →
      (i, j) ∉ (associate_detections_to_trackers lsq dets trks thr).1) := by
  have hinter : interArea d t = 0 := by
    unfold interArea
    rcases hdeg with h | h
    · have hx : min d.x2 t.x2 - max d.x1 t.x1 ≤ 0 := by
        have := min_le_left d.x2 t.x2
        have := le_max_left d.x1 t.x1
        linarith
      rw [max_eq_left hx, zero_mul]
    · have hy : min d.y2 t.y2 - max d.y1 t.y1 ≤ 0 := by
        have := min_le_left d.y2 t.y2
        have := le_max_left d.y1 t.y1
        linarith
      rw [max_eq_left hy, mul_zero]
  have hfin : area d + area t ≠ 0 → iou d t = PyF.fin 0 := by
    intro hden
    unfold iou fdiv
    rw [hinter]
    rw [if_neg (by simpa using hden)]
    simp
  refine ⟨hinter, hfin, ?_, ?_⟩
  · intro hden
    unfold iou fdiv
    rw [hinter]
    rw [if_pos (by simpa using hden)]
    simp
  · intro lsq dets trks thr i j hi hd hj ht hden hthr hmem
    have hne : trks.length ≠ 0 := by omega
    rw [associate_eq lsq dets trks thr hne] at hmem
    have hkeep := (List.mem_filter.mp hmem).2
    rw [matEntry_iou_batch dets trks i j hi hj, hd, ht, hfin hden] at hkeep
    simp [PyF.ltQ, hthr] at hkeep

/-- Counterexample for C9 as stated: the degenerate detection
`(0, 0, -1, 1)` (negative width) against the track box `(10, 10, 11, 11)`
gives signed areas `-1` and `1`, so the IoU denominator is 0 and the IoU
is numpy's `0/0 = NaN` — not zero; and since `NaN < threshold` is false,
the pair proposed by the assignment backend survives the post-filter and
IS returned as a match. -/
theorem degenerate_det_matched_counterexample :
    iou ⟨0, 0, -1, 1⟩ ⟨10, 10, 11, 11⟩ = PyF.nan ∧
    (associate_detections_to_trackers oneLsq [⟨0, 0, -1, 1⟩]
      [⟨10, 10, 11, 11⟩] (3/10)).1 = [(0, 0)] := by
  decide

/-- Witness for the amended C9 at a concrete input: a zero-width detection
against a unit track box has IoU exactly 0 and is never matched at
threshold 3/10. -/
theorem degenerate_det_iou_witness :
    iou ⟨0, 0, 0, 1⟩ ⟨10, 10, 11, 11⟩ = PyF.fin 0 ∧
    ((0, 0) ∉ (associate_detections_to_trackers oneLsq [⟨0, 0, 0, 1⟩]
      [⟨10, 10, 11, 11⟩] (3/10)).1) :=
  ⟨(degenerate_det_iou ⟨0, 0, 0, 1⟩ ⟨10, 10, 11, 11⟩ (by decide)).2.1 (by decide),
   (degenerate_det_iou ⟨0, 0, 0, 1⟩ ⟨10, 10, 11, 11⟩ (by decide)).2.2.2 oneLsq
     [⟨0, 0, 0, 1⟩] [⟨10, 10, 11, 11⟩] (3/10) 0 0 (by decide) (by decide)
     (by decide) (by decide) (by decide) (by decide)⟩

/-- C10: the two paths treat the exact threshold value asymmetrically.
The fast path's binary matrix uses the strict comparison
`iou_matrix > iou_threshold`, so an entry exactly equal to the threshold
contributes 0; the post-filter demotes only on the strict comparison
`iou_matrix[m] < iou_threshold`, so a candidate pair whose IoU equals the
threshold exactly — in particular one proposed by the assignment solver —
is kept as a match. -/
theorem threshold_boundary_asymmetry (dets trks : List Box4) (thr : ℚ)
    (i j : ℕ) :
    (matEntry (iou_batch dets trks) i j = PyF.fin thr →
      (matEntry (iou_batch dets trks) i j).gtQ thr = false) ∧
    (∀ lsq, trks.length ≠ 0 →
      ∀ m ∈ matchedIndices lsq dets trks thr,
        matEntry (iou_batch dets trks) m.1 m.2 = PyF.fin thr →
        m ∈ (associate_detections_to_trackers lsq dets trks thr).1) := by
  constructor
  · intro h
    rw [h]
    simp [PyF.gtQ]
  · intro lsq hne m hm heq
    rw [associate_eq lsq dets trks thr hne]
    apply List.mem_filter.mpr
    refine ⟨hm, ?_⟩
    rw [heq]
    simp [PyF.ltQ]

/-- Witness for C10 at a concrete input with IoU exactly 1/2 at threshold
1/2: the fast-path comparison is false, yet the solver-proposed pair is
kept as a match. -/
theorem threshold_boundary_asymmetry_witness :
    ((matEntry (iou_batch [⟨0, 0, 1, 2⟩] [⟨0, 0, 1, 1⟩]) 0 0).gtQ (1/2) = false) ∧
    ((0, 0) ∈ (associate_detections_to_trackers oneLsq [⟨0, 0, 1, 2⟩]
      [⟨0, 0, 1, 1⟩] (1/2)).1) :=
  ⟨(threshold_boundary_asymmetry [⟨0, 0, 1, 2⟩] [⟨0, 0, 1, 1⟩] (1/2) 0 0).1 (by decide),
   (threshold_boundary_asymmetry [⟨0, 0, 1, 2⟩] [⟨0, 0, 1, 1⟩] (1/2) 0 0).2 oneLsq
     (by decide) (0, 0) (by decide) (by decide)⟩

/-- A list with at most one element has no duplicates. -/
lemma nodup_of_length_le_one {α : Type} : ∀ (l : List α), l.length ≤ 1 → l.Nodup
  | [], _ => List.nodup_nil
  | [a], _ => List.nodup_singleton a
  | _ :: _ :: _, h => by simp at h

/-- A filterMap by a guarded constant is a filter followed by a map. -/
lemma filterMap_if_const {α β : Type} (p : α → Bool) (f : α → β) (l : List α) :
    l.filterMap (fun a => if p a then some (f a) else none) = (l.filter p).map f := by
  induction l with
  | nil => rfl
  | cons a l ih =>
    by_cases h : p a <;> simp [List.filterMap_cons, List.filter_cons, h, ih]

/-- Every element is bounded by the foldr-max (numpy's `.max()`). -/
lemma le_foldr_max (l : List ℕ) : ∀ x ∈ l, x ≤ l.foldr max 0 := by
  induction l with
  | nil => simp
  | cons a l ih =>
    intro x hx
    rcases List.mem_cons.mp hx with rfl | hx
    · exact le_max_left _ _
    · exact le_trans (ih x hx) (le_max_right _ _)

/-- Two distinct members force length at least two. -/
lemma two_mem_le_length {α : Type} [DecidableEq α] {l : List α} {a b : α}
    (ha : a ∈ l) (hb : b ∈ l) (hne : a ≠ b) : 2 ≤ l.length := by
  have hb' : b ∈ l.erase a := (List.mem_erase_of_ne (Ne.symm hne)).mpr hb
  have h1 : 1 ≤ (l.erase a).length := List.length_pos_of_mem hb'
  have h2 : (l.erase a).length = l.length - 1 := List.length_erase_of_mem ha
  have h3 : 1 ≤ l.length := List.length_pos_of_mem ha
  omega

/-- When the maximal row sum of the binary matrix is 1, every row has at
most one entry above the threshold. -/
lemma rowSums_le_one (dets trks : List Box4) (thr : ℚ)
    (h : (rowSumsOf dets trks thr).foldr max 0 = 1) :
    ∀ i < dets.length,
      (List.range trks.length).countP (fun j => gtEntry dets trks thr i j) ≤ 1 := by
  intro i hi
  have hmem : (List.range trks.length).countP (fun j => gtEntry dets trks thr i j) ∈
      rowSumsOf dets trks thr :=
    List.mem_map.mpr ⟨i, List.mem_range.mpr hi, rfl⟩
  have := le_foldr_max _ _ hmem
  omega

/-- When the maximal column sum of the binary matrix is 1, every column
has at most one entry above the threshold. -/
lemma colSums_le_one (dets trks : List Box4) (thr : ℚ)
    (h : (colSumsOf dets trks thr).foldr max 0 = 1) :
    ∀ j < trks.length,
      (List.range dets.length).countP (fun i => gtEntry dets trks thr i j) ≤ 1 := by
  intro j hj
  have hmem : (List.range dets.length).countP (fun i => gtEntry dets trks thr i j) ∈
      colSumsOf dets trks thr :=
    List.mem_map.mpr ⟨j, List.mem_range.mpr hj, rfl⟩
  have := le_foldr_max _ _ hmem
  omega

/-- Membership in the row-major true-position list. -/
lemma whereList_mem (dets trks : List Box4) (thr : ℚ) (p : ℕ × ℕ) :
    p ∈ whereList dets trks thr ↔
      p.1 < dets.length ∧ p.2 < trks.length ∧ gtEntry dets trks thr p.1 p.2 = true := by
  unfold whereList
  simp only [List.mem_flatMap, List.mem_filterMap, List.mem_range]
  constructor
  · rintro ⟨i, hi, j, hj, hij⟩
    by_cases h : gtEntry dets trks thr i j
    · rw [if_pos h] at hij
      obtain rfl := (Option.some_inj.mp hij).symm
      exact ⟨hi, hj, h⟩
    · rw [if_neg h] at hij
      exact absurd hij (Option.some_ne_none _).symm
  · rintro ⟨h1, h2, h3⟩
    exact ⟨p.1, h1, p.2, ⟨h2, by simp [h3]⟩⟩

/-- The first components of the true-position list, row by row. -/
lemma whereList_map_fst (dets trks : List Box4) (thr : ℚ) :
    (whereList dets trks thr).map Prod.fst =
      (List.range dets.length).flatMap (fun i =>
        ((List.range trks.length).filter (fun j => gtEntry dets trks thr i j)).map
          (fun _ => i)) := by
  unfold whereList
  rw [List.map_flatMap]
  have hfun : (fun i => ((List.range trks.length).filterMap
        (fun j => if gtEntry dets trks thr i j then some (i, j) else none)).map Prod.fst) =
      (fun i => ((List.range trks.length).filter
        (fun j => gtEntry dets trks thr i j)).map (fun _ => i)) := by
    funext i
    rw [List.map_filterMap]
    have harg : (fun j => (if gtEntry dets trks thr i j then some (i, j) else none).map
        Prod.fst) = (fun j => if gtEntry dets trks thr i j then some i else none) := by
      funext j
      by_cases h : gtEntry dets trks thr i j <;> simp [h]
    rw [harg, filterMap_if_const]
  rw [hfun]

/-- The second components of the true-position list, row by row. -/
lemma whereList_map_snd (dets trks : List Box4) (thr : ℚ) :
    (whereList dets trks thr).map Prod.snd =
      (List.range dets.length).flatMap (fun i =>
        (List.range trks.length).filter (fun j => gtEntry dets trks thr i j)) := by
  unfold whereList
  rw [List.map_flatMap]
  have hfun : (fun i => ((List.range trks.length).filterMap
        (fun j => if gtEntry dets trks thr i j then some (i, j) else none)).map Prod.snd) =
      (fun i => (List.range trks.length).filter (fun j => gtEntry dets trks thr i j)) := by
    funext i
    rw [List.map_filterMap]
    have harg : (fun j => (if gtEntry dets trks thr i j then some (i, j) else none).map
        Prod.snd) = (fun j => if gtEntry dets trks thr i j then some j else none) := by
      funext j
      by_cases h : gtEntry dets trks thr i j <;> simp [h]
    rw [harg, filterMap_if_const, List.map_id']
  rw [hfun]

/-- Under the row-sum guard, the first components of the true-position
list are distinct. -/
lemma whereList_nodup_fst (dets trks : List Box4) (thr : ℚ)
    (hrow : ∀ i < dets.length,
      (List.range trks.length).countP (fun j => gtEntry dets trks thr i j) ≤ 1) :
    ((whereList dets trks thr).map Prod.fst).Nodup := by
  rw [whereList_map_fst]
  apply List.nodup_flatMap.mpr
  constructor
  · intro i hi
    apply nodup_of_length_le_one
    rw [List.length_map, ← List.countP_eq_length_filter]
    exact hrow i (List.mem_range.mp hi)
  · apply List.Pairwise.imp ?_ (List.pairwise_lt_range _)
    intro i i' hlt x hx hx'
    obtain ⟨_, _, rfl⟩ := List.mem_map.mp hx
    obtain ⟨_, _, h⟩ := List.mem_map.mp hx'
    omega

/-- Under the column-sum guard, the second components of the true-position
list are distinct. -/
lemma whereList_nodup_snd (dets trks : List Box4) (thr : ℚ)
    (hcol : ∀ j < trks.length,
      (List.range dets.length).countP (fun i => gtEntry dets trks thr i j) ≤ 1) :
    ((whereList dets trks thr).map Prod.snd).Nodup := by
  rw [whereList_map_snd]
  apply List.nodup_flatMap.mpr
  constructor
  · intro i _
    exact (List.nodup_range _).filter _
  · apply List.Pairwise.imp_of_mem ?_ (List.pairwise_lt_range _)
    intro i i' hi hi' hlt x hx hx'
    obtain ⟨hxr, hgi⟩ := List.mem_filter.mp hx
    obtain ⟨_, hgi'⟩ := List.mem_filter.mp hx'
    have hmem1 : i ∈ (List.range dets.length).filter (fun i0 => gtEntry dets trks thr i0 x) :=
      List.mem_filter.mpr ⟨hi, hgi⟩
    have hmem2 : i' ∈ (List.range dets.length).filter (fun i0 => gtEntry dets trks thr i0 x) :=
      List.mem_filter.mpr ⟨hi', hgi'⟩
    have h2 := two_mem_le_length hmem1 hmem2 (Nat.ne_of_lt hlt)
    have := hcol x (List.mem_range.mp hxr)
    rw [List.countP_eq_length_filter] at this
    omega

/-- Whatever path produced them, the candidate pairs of
`associate_detections_to_trackers` have distinct tracker indices, provided
the assignment backend returns distinct column indices. -/
lemma matchedIndices_nodup_snd (lsq : List (List PyF) → List (ℕ × ℕ))
    (dets trks : List Box4) (thr : ℚ)
    (Hs : ((lsq (negIouMatrix dets trks)).map Prod.snd).Nodup) :
    ((matchedIndices lsq dets trks thr).map Prod.snd).Nodup := by
  unfold matchedIndices
  by_cases h1 : 0 < min dets.length trks.length
  · rw [if_pos h1]
    by_cases h2 : (rowSumsOf dets trks thr).foldr max 0 = 1 ∧
        (colSumsOf dets trks thr).foldr max 0 = 1
    · rw [if_pos h2]
      exact whereList_nodup_snd dets trks thr (colSums_le_one dets trks thr h2.2)
    · rw [if_neg h2]
      exact Hs
  · rw [if_neg h1]
    exact List.nodup_nil

/-- The candidate pairs have distinct detection indices, distinct tracker
indices, and in-range indices, provided the assignment backend satisfies
the same (as lap.lapjv and scipy's linear_sum_assignment do: both return
one-to-one partial assignments within the cost matrix's shape). -/
lemma matchedIndices_spec (lsq : List (List PyF) → List (ℕ × ℕ))
    (dets trks : List Box4) (thr : ℚ)
    (Hf : ((lsq (negIouMatrix dets trks)).map Prod.fst).Nodup)
    (Hs : ((lsq (negIouMatrix dets trks)).map Prod.snd).Nodup)
    (Hr : ∀ p ∈ lsq (negIouMatrix dets trks), p.1 < dets.length ∧ p.2 < trks.length) :
    ((matchedIndices lsq dets trks thr).map Prod.fst).Nodup ∧
    ((matchedIndices lsq dets trks thr).map Prod.snd).Nodup ∧
    (∀ p ∈ matchedIndices lsq dets trks thr,
      p.1 < dets.length ∧ p.2 < trks.length) := by
  unfold matchedIndices
  by_cases h1 : 0 < min dets.length trks.length
  · rw [if_pos h1]
    by_cases h2 : (rowSumsOf dets trks thr).foldr max 0 = 1 ∧
        (colSumsOf dets trks thr).foldr max 0 = 1
    · rw [if_pos h2]
      refine ⟨whereList_nodup_fst dets trks thr (rowSums_le_one dets trks thr h2.1),
        whereList_nodup_snd dets trks thr (colSums_le_one dets trks thr h2.2), ?_⟩
      intro p hp
      have := (whereList_mem dets trks thr p).mp hp
      exact ⟨this.1, this.2.1⟩
    · rw [if_neg h2]
      exact ⟨Hf, Hs, Hr⟩
  · rw [if_neg h1]
    exact ⟨List.nodup_nil, List.nodup_nil, by simp⟩

/-- Generic one-side partition argument for the association output: with
distinct in-range projected indices, the kept candidates' indices, the
initially-unmatched indices and the demoted candidates' indices together
list every index below `n` exactly once. -/
lemma partition_side (P : ℕ × ℕ → Bool) (f : ℕ × ℕ → ℕ) (ms : List (ℕ × ℕ)) (n : ℕ)
    (hnd : (ms.map f).Nodup) (hrng : ∀ p ∈ ms, f p < n) :
    (((ms.filter (fun m => !P m)).map f ++
      ((List.range n).filter (fun k => decide (k ∉ ms.map f)) ++
        (ms.filter P).map f)).Nodup) ∧
    (∀ k, k ∈ (ms.filter (fun m => !P m)).map f ++
      ((List.range n).filter (fun k => decide (k ∉ ms.map f)) ++
        (ms.filter P).map f) ↔ k < n) := by
  have hperm0 : List.Perm ((ms.filter (fun m => !P m)).map f ++ (ms.filter P).map f)
      (ms.map f) := by
    have h1 : List.Perm (ms.filter (fun m => !P m) ++ ms.filter (fun m => !(!P m))) ms :=
      List.filter_append_perm _ ms
    have h2 : ms.filter (fun m => !(!P m)) = ms.filter P := by
      apply List.filter_congr
      intro m _
      simp
    rw [h2] at h1
    have := h1.map f
    rw [List.map_append] at this
    exact this
  have hperm : List.Perm ((ms.filter (fun m => !P m)).map f ++
      ((List.range n).filter (fun k => decide (k ∉ ms.map f)) ++ (ms.filter P).map f))
      (ms.map f ++ (List.range n).filter (fun k => decide (k ∉ ms.map f))) := by
    have s1 : List.Perm ((ms.filter (fun m => !P m)).map f ++
        ((List.range n).filter (fun k => decide (k ∉ ms.map f)) ++ (ms.filter P).map f))
        ((ms.filter (fun m => !P m)).map f ++
          ((ms.filter P).map f ++ (List.range n).filter (fun k => decide (k ∉ ms.map f)))) :=
      List.Perm.append_left _ List.perm_append_comm
    have s2 : ((ms.filter (fun m => !P m)).map f ++
        ((ms.filter P).map f ++ (List.range n).filter (fun k => decide (k ∉ ms.map f)))) =
        ((ms.filter (fun m => !P m)).map f ++ (ms.filter P).map f) ++
          (List.range n).filter (fun k => decide (k ∉ ms.map f)) :=
      (List.append_assoc _ _ _).symm
    have s3 : List.Perm (((ms.filter (fun m => !P m)).map f ++ (ms.filter P).map f) ++
        (List.range n).filter (fun k => decide (k ∉ ms.map f)))
        (ms.map f ++ (List.range n).filter (fun k => decide (k ∉ ms.map f))) :=
      List.Perm.append_right _ hperm0
    exact (s1.trans (s2 ▸ List.Perm.refl _)).trans s3
  have hnodup : (ms.map f ++ (List.range n).filter (fun k => decide (k ∉ ms.map f))).Nodup := by
    refine List.Nodup.append hnd ((List.nodup_range n).filter _) ?_
    intro x hx hx'
    have := (List.mem_filter.mp hx').2
    simp only [decide_eq_true_eq] at this
    exact this hx
  constructor
  · exact hperm.symm.nodup hnodup
  · intro k
    rw [hperm.mem_iff, List.mem_append]
    constructor
    · rintro (hk | hk)
      · obtain ⟨p, hp, rfl⟩ := List.mem_map.mp hk
        exact hrng p hp
      · exact List.mem_range.mp (List.mem_filter.mp hk).1
    · intro hk
      by_cases hm : k ∈ ms.map f
      · exact Or.inl hm
      · exact Or.inr (List.mem_filter.mpr ⟨List.mem_range.mpr hk, by simpa using hm⟩)

/-- C6: for every input, the three outputs of
`associate_detections_to_trackers` partition the index ranges: every
detection index below `|D|` appears exactly once across the matches' first
column and `unmatched_detections`, and every tracker index below `|T|`
appears exactly once across the matches' second column and
`unmatched_trackers`.  The assignment backend is assumed (as lap.lapjv and
scipy's Hungarian method guarantee) to return a one-to-one partial
assignment with indices inside the cost matrix. -/
theorem associate_partitions_indices (lsq : List (List PyF) → List (ℕ × ℕ))
    (dets trks : List Box4) (thr : ℚ)
    (Hf : ((lsq (negIouMatrix dets trks)).map Prod.fst).Nodup)
    (Hs : ((lsq (negIouMatrix dets trks)).map Prod.snd).Nodup)
    (Hr : ∀ p ∈ lsq (negIouMatrix dets trks), p.1 < dets.length ∧ p.2 < trks.length) :
    (((associate_detections_to_trackers lsq dets trks thr).1.map Prod.fst ++
       (associate_detections_to_trackers lsq dets trks thr).2.1).Nodup ∧
     (∀ k, k ∈ (associate_detections_to_trackers lsq dets trks thr).1.map Prod.fst ++
       (associate_detections_to_trackers lsq dets trks thr).2.1 ↔ k < dets.length)) ∧
    (((associate_detections_to_trackers lsq dets trks thr).1.map Prod.snd ++
       (associate_detections_to_trackers lsq dets trks thr).2.2).Nodup ∧
     (∀ k, k ∈ (associate_detections_to_trackers lsq dets trks thr).1.map Prod.snd ++
       (associate_detections_to_trackers lsq dets trks thr).2.2 ↔ k < trks.length)) := by
  by_cases hempty : trks.length = 0
  · unfold associate_detections_to_trackers
    rw [if_pos hempty]
    refine ⟨⟨by simpa using List.nodup_range dets.length, ?_⟩, ⟨by simp, ?_⟩⟩
    · intro k
      simp [List.mem_range]
    · intro k
      simp [hempty]
  · obtain ⟨hf, hs, hr⟩ := matchedIndices_spec lsq dets trks thr Hf Hs Hr
    rw [associate_eq lsq dets trks thr hempty]
    constructor
    · have h := partition_side
        (fun m => (matEntry (iou_batch dets trks) m.1 m.2).ltQ thr) Prod.fst
        (matchedIndices lsq dets trks thr) dets.length hf
        (fun p hp => (hr p hp).1)
      exact h
    · have h := partition_side
        (fun m => (matEntry (iou_batch dets trks) m.1 m.2).ltQ thr) Prod.snd
        (matchedIndices lsq dets trks thr) trks.length hs
        (fun p hp => (hr p hp).2)
      exact h

/-- Witness for C6 at a concrete input: one detection, one identical
tracker box, a trivial backend satisfying the assignment contract. -/
theorem associate_partitions_indices_witness :
    ((associate_detections_to_trackers emptyLsq [⟨0, 0, 10, 10⟩] [⟨0, 0, 10, 10⟩]
        (3/10)).1.map Prod.fst ++
      (associate_detections_to_trackers emptyLsq [⟨0, 0, 10, 10⟩] [⟨0, 0, 10, 10⟩]
        (3/10)).2.1).Nodup :=
  ((associate_partitions_indices emptyLsq [⟨0, 0, 10, 10⟩] [⟨0, 0, 10, 10⟩] (3/10)
    List.nodup_nil List.nodup_nil (by intro p hp; simp [emptyLsq] at hp)).1).1

/-- After a predict step on a track satisfying the counter invariant, the
streak still bounds the hits and the hits are now strictly below the age. -/
lemma predict_counters {σ : Type} (M : KFModel σ) (t : KalmanBoxTracker σ)
    (h : t.hit_streak ≤ t.hits ∧ t.hits ≤ t.age) :
    (t.predict M).1.hit_streak ≤ (t.predict M).1.hits ∧
      (t.predict M).1.hits < (t.predict M).1.age := by
  unfold KalmanBoxTracker.predict
  constructor
  · by_cases h0 : 0 < t.time_since_update <;> simp [h0]
    · exact h.1
  · simp
    omega

/-- A Kalman correction on a freshly predicted track restores the weak
invariant. -/
lemma update_counters {σ : Type} (M : KFModel σ) (t : KalmanBoxTracker σ) (b : Det)
    (h : t.hit_streak ≤ t.hits ∧ t.hits < t.age) :
    (t.update M b).hit_streak ≤ (t.update M b).hits ∧
      (t.update M b).hits ≤ (t.update M b).age := by
  unfold KalmanBoxTracker.update
  simp
  omega

/-- Every track surviving the NaN deletions went through predict this
frame, so it satisfies the strict post-predict counter bounds. -/
lemma postDelete_counters {σ : Type} (M : KFModel σ) (ts : List (KalmanBoxTracker σ))
    (h : ∀ t ∈ ts, t.hit_streak ≤ t.hits ∧ t.hits ≤ t.age) :
    ∀ t ∈ postDelete M ts, t.hit_streak ≤ t.hits ∧ t.hits < t.age := by
  intro t ht
  have hmem := popLoop_subset _ _ t ht
  obtain ⟨p, hp, rfl⟩ := List.mem_map.mp hmem
  obtain ⟨u, hu, rfl⟩ := List.mem_map.mp hp
  exact predict_counters M u (h u hu)

/-- With distinct tracker indices among the matches, each list position is
either untouched or updated exactly once by the matched-update loop. -/
lemma updateMatched_getD_shape {σ : Type} (M : KFModel σ) (dets : List Det)
    (ts : List (KalmanBoxTracker σ)) (ms : List (ℕ × ℕ))
    (hnd : (ms.map Prod.snd).Nodup) (j : ℕ) (d : KalmanBoxTracker σ) :
    (updateMatched M dets ts ms).getD j d = ts.getD j d ∨
    ∃ b, (updateMatched M dets ts ms).getD j d =
      KalmanBoxTracker.update M (ts.getD j d) b := by
  induction ms generalizing ts with
  | nil => exact Or.inl rfl
  | cons m ms ih =>
    have hstep : updateMatched M dets ts (m :: ms) =
        updateMatched M dets (ts.mapIdx (fun j t =>
          if j = m.2 then t.update M (dets.getD m.1 defaultDet) else t)) ms := rfl
    rw [hstep]
    simp only [List.map_cons, List.nodup_cons] at hnd
    by_cases hj : j = m.2
    · subst hj
      rw [updateMatched_getD_not_mem M dets _ ms m.2 d hnd.1]
      by_cases hlt : m.2 < ts.length
      · right
        refine ⟨dets.getD m.1 defaultDet, ?_⟩
        rw [List.getD_eq_getElem _ _ (by simpa using hlt), List.getElem_mapIdx,
          List.getD_eq_getElem _ _ hlt]
        simp
      · left
        rw [List.getD_eq_default _ _ (by simpa using Nat.not_lt.mp hlt),
          List.getD_eq_default _ _ (Nat.not_lt.mp hlt)]
    · have hd : (ts.mapIdx (fun j t =>
          if j = m.2 then t.update M (dets.getD m.1 defaultDet) else t)).getD j d =
          ts.getD j d := by
        by_cases hlt : j < ts.length
        · rw [List.getD_eq_getElem _ _ (by simpa using hlt), List.getElem_mapIdx,
            List.getD_eq_getElem _ _ hlt]
          simp [hj]
        · rw [List.getD_eq_default _ _ (by simpa using Nat.not_lt.mp hlt),
            List.getD_eq_default _ _ (Nat.not_lt.mp hlt)]
      rcases ih _ hnd.2 with h | ⟨b, hb⟩
      · exact Or.inl (by rw [h, hd])
      · exact Or.inr ⟨b, by rw [hb, hd]⟩

/-- The matched-update loop restores the weak counter invariant on every
element, given post-predict bounds on the input list and distinct tracker
indices among the matches. -/
lemma updateMatched_counters {σ : Type} (M : KFModel σ) (dets : List Det)
    (ts : List (KalmanBoxTracker σ)) (ms : List (ℕ × ℕ))
    (hnd : (ms.map Prod.snd).Nodup)
    (hts : ∀ t ∈ ts, t.hit_streak ≤ t.hits ∧ t.hits < t.age) :
    ∀ t ∈ updateMatched M dets ts ms,
      t.hit_streak ≤ t.hits ∧ t.hits ≤ t.age := by
  intro t ht
  obtain ⟨j, hj, rfl⟩ := List.mem_iff_getElem.mp ht
  have hjts : j < ts.length := by
    have := updateMatched_length M dets ts ms
    omega
  rw [show (updateMatched M dets ts ms)[j] =
      (updateMatched M dets ts ms).getD j (ts.get ⟨j, hjts⟩) from
    (List.getD_eq_getElem _ _ hj).symm]
  have hts' := hts (ts.get ⟨j, hjts⟩) (ts.get_mem j hjts)
  rcases updateMatched_getD_shape M dets ts ms hnd j (ts.get ⟨j, hjts⟩) with h | ⟨b, hb⟩
  · rw [h, List.getD_eq_getElem _ _ hjts]
    exact ⟨hts'.1, le_of_lt hts'.2⟩
  · rw [hb, List.getD_eq_getElem _ _ hjts]
    exact update_counters M _ b hts'

/-- The matches emitted by the association step carry distinct tracker
indices whenever the assignment backend does. -/
lemma associate_nodup_snd (lsq : List (List PyF) → List (ℕ × ℕ))
    (dets trks : List Box4) (thr : ℚ)
    (Hs : ((lsq (negIouMatrix dets trks)).map Prod.snd).Nodup) :
    (((associate_detections_to_trackers lsq dets trks thr).1).map Prod.snd).Nodup := by
  by_cases h : trks.length = 0
  · unfold associate_detections_to_trackers
    rw [if_pos h]
    simp
  · rw [associate_eq lsq dets trks thr h]
    exact List.Nodup.sublist ((List.filter_sublist _).map Prod.snd)
      (matchedIndices_nodup_snd lsq dets trks thr Hs)

/-- One `Sort.update` call preserves the counter invariant on every live
track, for any filter backend and any assignment backend returning
distinct tracker indices. -/
lemma step_preserves_counters {σ : Type} (M : KFModel σ)
    (lsq : List (List PyF) → List (ℕ × ℕ))
    (Hlsq : ∀ cm, ((lsq cm).map Prod.snd).Nodup)
    (s : SortTracker σ) (c : ℕ) (dets : List Det)
    (h : ∀ t ∈ s.trackers, t.hit_streak ≤ t.hits ∧ t.hits ≤ t.age) :
    ∀ t ∈ (SortTracker.update M lsq s c dets).state.trackers,
      t.hit_streak ≤ t.hits ∧ t.hits ≤ t.age := by
  intro t ht
  rw [(sortUpdate_parts M lsq s c dets).1, emissionWalk_snd] at ht
  have ht2 := (List.mem_filter.mp ht).1
  unfold preEmission at ht2
  rcases birthPhase_mem M dets _ _ c t ht2 with hmem | hfresh
  · unfold postUpdate at hmem
    refine updateMatched_counters M dets _ _ ?_ ?_ t hmem
    · exact associate_nodup_snd lsq (dets.map Det.box) _ s.iou_threshold (Hlsq _)
    · exact postDelete_counters M s.trackers h
  · omega

/-- C7: for every live track at every frame boundary — any number of
`Sort.update` calls from a fresh instance, any detections, any filter
backend, any assignment backend returning a one-to-one assignment — the
bookkeeping counters satisfy `0 ≤ hit_streak ≤ hits ≤ age` and
`time_since_update ≥ 0` (the counters are naturals in the model because
the source only zeroes or increments them). -/
theorem track_counters_invariant {σ : Type} (M : KFModel σ)
    (lsq : List (List PyF) → List (ℕ × ℕ))
    (Hlsq : ∀ cm, ((lsq cm).map Prod.snd).Nodup)
    (s : SortTracker σ) (c : ℕ) (h : Reachable M lsq s c) :
    ∀ t ∈ s.trackers, 0 ≤ t.hit_streak ∧ t.hit_streak ≤ t.hits ∧
      t.hits ≤ t.age ∧ 0 ≤ t.time_since_update := by
  have main : ∀ t ∈ s.trackers, t.hit_streak ≤ t.hits ∧ t.hits ≤ t.age := by
    induction h with
    | base ma mh thr c =>
      intro t ht
      exact absurd ht (List.not_mem_nil t)
    | step s c dets hr ih =>
      exact step_preserves_counters M lsq Hlsq s c dets ih
  intro t ht
  exact ⟨Nat.zero_le _, (main t ht).1, (main t ht).2, Nat.zero_le _⟩

/-- Witness for C7 on a concrete reachable state: a fresh instance after
one frame with one detection; its single live track satisfies the counter
bounds. -/
theorem track_counters_invariant_witness :
    0 ≤ ((SortTracker.update unitKF emptyLsq (SortTracker.init 1 3 (3/10)) 0
        [det0]).state.trackers.getD 0 trackerU0).hit_streak ∧
    ((SortTracker.update unitKF emptyLsq (SortTracker.init 1 3 (3/10)) 0
        [det0]).state.trackers.getD 0 trackerU0).hit_streak ≤
      ((SortTracker.update unitKF emptyLsq (SortTracker.init 1 3 (3/10)) 0
        [det0]).state.trackers.getD 0 trackerU0).hits ∧
    ((SortTracker.update unitKF emptyLsq (SortTracker.init 1 3 (3/10)) 0
        [det0]).state.trackers.getD 0 trackerU0).hits ≤
      ((SortTracker.update unitKF emptyLsq (SortTracker.init 1 3 (3/10)) 0
        [det0]).state.trackers.getD 0 trackerU0).age ∧
    0 ≤ ((SortTracker.update unitKF emptyLsq (SortTracker.init 1 3 (3/10)) 0
        [det0]).state.trackers.getD 0 trackerU0).time_since_update :=
  track_counters_invariant unitKF emptyLsq (fun _ => List.nodup_nil) _ _
    (Reachable.step (SortTracker.init 1 3 (3/10)) 0 [det0]
      (Reachable.base 1 3 (3/10) 0))
    _ (by decide)
